import Mathlib

namespace DataFusion

/-! Primitive data types (closed enumeration, spec §3). -/
inductive DataType where
  | Boolean | Int8 | Int16 | Int32 | Int64
  | UInt8 | UInt16 | UInt32 | UInt64
  | Float32 | Float64 | Utf8
  deriving DecidableEq, Repr, Fintype

/-- Rendering of a data type, as in the source's Debug output. -/
def DataType.fmt : DataType → String
  | .Boolean => "Boolean" | .Int8 => "Int8" | .Int16 => "Int16"
  | .Int32 => "Int32" | .Int64 => "Int64"
  | .UInt8 => "UInt8" | .UInt16 => "UInt16" | .UInt32 => "UInt32"
  | .UInt64 => "UInt64" | .Float32 => "Float32" | .Float64 => "Float64"
  | .Utf8 => "Utf8"

def DataType.is_signed_integer : DataType → Bool
  | .Int8 | .Int16 | .Int32 | .Int64 => true
  | _ => false

def DataType.is_unsigned_integer : DataType → Bool
  | .UInt8 | .UInt16 | .UInt32 | .UInt64 => true
  | _ => false

def DataType.is_float : DataType → Bool
  | .Float32 | .Float64 => true
  | _ => false

def DataType.is_integer (d : DataType) : Bool :=
  d.is_signed_integer || d.is_unsigned_integer

def DataType.bit_width : DataType → Nat
  | .Int8 | .UInt8 => 8
  | .Int16 | .UInt16 => 16
  | .Int32 | .UInt32 | .Float32 => 32
  | .Int64 | .UInt64 | .Float64 => 64
  | .Boolean => 1
  | .Utf8 => 0

/-- The wider of two types of the same numeric class. -/
def wider (a b : DataType) : DataType :=
  if b.bit_width ≤ a.bit_width then a else b

/-- The signed integer type an unsigned integer type promotes into:
the signed type of equal-or-greater bit width that can represent the
unsigned type's full range (spec §4.1). `UInt64` has no such type. -/
def promote_unsigned : DataType → Option DataType
  | .UInt8 => some .Int16
  | .UInt16 => some .Int32
  | .UInt32 => some .Int64
  | _ => none

/-- Errors surfaced by the pass (spec §7).  `indexOutOfBounds` models the
panic of an out-of-bounds slice index in the source's scalar-function
argument loop, made explicit in the total embedding. -/
inductive ExecutionError where
  | general (msg : String)
  | indexOutOfBounds
  deriving DecidableEq, Repr

abbrev Result (α : Type) := Except ExecutionError α

instance {ε α : Type} [DecidableEq ε] [DecidableEq α] : DecidableEq (Except ε α)
  | .ok a, .ok b =>
    if h : a = b then .isTrue (by rw [h]) else .isFalse (by intro c; cases c; exact h rfl)
  | .ok _, .error _ => .isFalse (by intro c; cases c)
  | .error _, .ok _ => .isFalse (by intro c; cases c)
  | .error a, .error b =>
    if h : a = b then .isTrue (by rw [h]) else .isFalse (by intro c; cases c; exact h rfl)

/-- Modelled from the spec: `utils::get_supertype` is not part of the
source under verification; spec §4.1 fixes its behavior.  If the types
are equal the answer is that type; two floats promote to the wider one;
an integer paired with a float promotes to the float; two signed (or two
unsigned) integers promote to the wider one; an unsigned integer paired
with a signed one promotes to the wider of the signed operand and the
signed type covering the unsigned operand's range; every other pair has
no supertype and fails with a `TypeError` naming both types. -/
def get_supertype (a b : DataType) : Result DataType :=
  if a = b then .ok a
  else if a.is_float && b.is_float then .ok (wider a b)
  else if a.is_float && b.is_integer then .ok a
  else if a.is_integer && b.is_float then .ok b
  else if a.is_signed_integer && b.is_signed_integer then .ok (wider a b)
  else if a.is_unsigned_integer && b.is_unsigned_integer then .ok (wider a b)
  else if a.is_unsigned_integer && b.is_signed_integer then
    match promote_unsigned a with
    | some p => .ok (wider p b)
    | none => .error (.general ("Failed to determine supertype of " ++ a.fmt ++ " and " ++ b.fmt))
  else if a.is_signed_integer && b.is_unsigned_integer then
    match promote_unsigned b with
    | some p => .ok (wider a p)
    | none => .error (.general ("Failed to determine supertype of " ++ a.fmt ++ " and " ++ b.fmt))
  else .error (.general ("Failed to determine supertype of " ++ a.fmt ++ " and " ++ b.fmt))

/-! Schemas (spec §3): ordered field lists attached to plan nodes. -/
structure Field where
  name : String
  data_type : DataType
  nullable : Bool
  deriving DecidableEq, Repr

structure Schema where
  fields : List Field
  deriving DecidableEq, Repr

/-- Schema lookup of a field by name (spec §3: field names unique). -/
def Schema.field_with_name (s : Schema) (name : String) : Option Field :=
  s.fields.find? (fun f => f.name == name)

/-- Literal scalar values; each carries its own type (spec §3). -/
inductive ScalarValue where
  | boolean (b : Bool)
  | int8 (v : Int) | int16 (v : Int) | int32 (v : Int) | int64 (v : Int)
  | uint8 (v : Nat) | uint16 (v : Nat) | uint32 (v : Nat) | uint64 (v : Nat)
  | float32 (v : Int) | float64 (v : Int)
  | utf8 (s : String)
  deriving DecidableEq, Repr

def ScalarValue.get_datatype : ScalarValue → DataType
  | .boolean _ => .Boolean
  | .int8 _ => .Int8 | .int16 _ => .Int16 | .int32 _ => .Int32 | .int64 _ => .Int64
  | .uint8 _ => .UInt8 | .uint16 _ => .UInt16 | .uint32 _ => .UInt32 | .uint64 _ => .UInt64
  | .float32 _ => .Float32 | .float64 _ => .Float64
  | .utf8 _ => .Utf8

def ScalarValue.fmt : ScalarValue → String
  | .boolean b => "Boolean(" ++ toString b ++ ")"
  | .int8 v => "Int8(" ++ toString v ++ ")"
  | .int16 v => "Int16(" ++ toString v ++ ")"
  | .int32 v => "Int32(" ++ toString v ++ ")"
  | .int64 v => "Int64(" ++ toString v ++ ")"
  | .uint8 v => "UInt8(" ++ toString v ++ ")"
  | .uint16 v => "UInt16(" ++ toString v ++ ")"
  | .uint32 v => "UInt32(" ++ toString v ++ ")"
  | .uint64 v => "UInt64(" ++ toString v ++ ")"
  | .float32 v => "Float32(" ++ toString v ++ ")"
  | .float64 v => "Float64(" ++ toString v ++ ")"
  | .utf8 s => "Utf8(" ++ s ++ ")"

/-- Binary operators (closed set; spec §3). -/
inductive Operator where
  | Eq | NotEq | Lt | LtEq | Gt | GtEq
  | Plus | Minus | Multiply | Divide | Modulus
  | And | Or
  deriving DecidableEq, Repr

def Operator.fmt : Operator → String
  | .Eq => "Eq" | .NotEq => "NotEq" | .Lt => "Lt" | .LtEq => "LtEq"
  | .Gt => "Gt" | .GtEq => "GtEq" | .Plus => "Plus" | .Minus => "Minus"
  | .Multiply => "Multiply" | .Divide => "Divide" | .Modulus => "Modulus"
  | .And => "And" | .Or => "Or"

/-- Operators whose result type is Boolean (comparisons and logical
connectives), as opposed to arithmetic operators. -/
def Operator.is_boolean_result : Operator → Bool
  | .Eq | .NotEq | .Lt | .LtEq | .Gt | .GtEq | .And | .Or => true
  | _ => false

/-- Expression grammar: the closed recursive variant set of
`logicalplan::Expr`, exactly the variants matched by `rewrite_expr`
in the source. -/
inductive Expr where
  | BinaryExpr (left : Expr) (op : Operator) (right : Expr)
  | IsNull (e : Expr)
  | IsNotNull (e : Expr)
  | ScalarFunction (name : String) (args : List Expr) (return_type : DataType)
  | AggregateFunction (name : String) (args : List Expr) (return_type : DataType)
  | Cast (e : Expr) (data_type : DataType)
  | Column (name : String)
  | Alias (e : Expr) (aname : String)
  | Literal (v : ScalarValue)
  | Not (e : Expr)
  | Sort (e : Expr) (asc : Bool)
  | Wildcard
  | Nested (e : Expr)
  deriving Repr

/-- Modelled from the spec: `Expr::get_type` is not part of the source
under verification; spec §4.2 fixes its behavior.  Column references
resolve via schema lookup (error if absent); literals carry their own
type; cast and alias pass through their declared/target type; function
calls report their declared return type; null-predicates and logical
not are Boolean-valued.  The spec leaves the resolved type of a binary
expression with differing operand types open (the resolver "does not
insert casts"); following the source repository's resolver, comparison
and logical operators resolve to Boolean and arithmetic operators to
the left operand's type. -/
def Expr.get_type (e : Expr) (schema : Schema) : Result DataType :=
  match e with
  | .BinaryExpr l op _ =>
    if op.is_boolean_result then .ok .Boolean else l.get_type schema
  | .IsNull _ => .ok .Boolean
  | .IsNotNull _ => .ok .Boolean
  | .ScalarFunction _ _ return_type => .ok return_type
  | .AggregateFunction _ _ return_type => .ok return_type
  | .Cast _ data_type => .ok data_type
  | .Column name =>
    match schema.field_with_name name with
    | some f => .ok f.data_type
    | none => .error (.general ("No field named " ++ name))
  | .Alias e _ => e.get_type schema
  | .Literal v => .ok v.get_datatype
  | .Not _ => .ok .Boolean
  | .Sort e _ => e.get_type schema
  | .Wildcard => .error (.general "Wildcard expressions are not valid in a logical query plan")
  | .Nested e => e.get_type schema

/-- Modelled from the spec: `Expr::cast_to` is not part of the source
under verification; spec §4.3 fixes its behavior: an expression that
already resolves to the target type is returned unchanged, otherwise it
is wrapped in an explicit cast to the target type. -/
def Expr.cast_to (e : Expr) (cast_to_type : DataType) (schema : Schema) : Result Expr := do
  let this_type ← e.get_type schema
  if this_type = cast_to_type then pure e
  else pure (Expr.Cast e cast_to_type)

/-- Registry metadata of a scalar function (spec §3): ordered expected
parameter fields and declared return type. -/
structure ScalarFunction where
  name : String
  args : List Field
  return_type : DataType
  deriving DecidableEq, Repr

/-- The function signature registry, `name -> metadata`
(`HashMap<String, Box<ScalarFunction>>` in the source), modelled as an
association list with by-name lookup. -/
abbrev ScalarFunctionRegistry := List (String × ScalarFunction)

def ScalarFunctionRegistry.get (r : ScalarFunctionRegistry) (name : String) : Option ScalarFunction :=
  match r with
  | [] => none
  | (k, v) :: rest => if k == name then some v else ScalarFunctionRegistry.get rest name

mutual
/-- `TypeCoercionRule::rewrite_expr`: rewrite an expression to include
explicit CAST operations when required. -/
def rewrite_expr (R : ScalarFunctionRegistry) (schema : Schema) : Expr → Result Expr
  | .BinaryExpr left op right => do
    let left ← rewrite_expr R schema left
    let right ← rewrite_expr R schema right
    let left_type ← left.get_type schema
    let right_type ← right.get_type schema
    if left_type = right_type then
      pure (.BinaryExpr left op right)
    else do
      let super_type ← get_supertype left_type right_type
      let lc ← left.cast_to super_type schema
      let rc ← right.cast_to super_type schema
      pure (.BinaryExpr lc op rc)
  | .IsNull e => do
    pure (.IsNull (← rewrite_expr R schema e))
  | .IsNotNull e => do
    pure (.IsNotNull (← rewrite_expr R schema e))
  | .ScalarFunction name args return_type =>
    -- cast the inputs of scalar functions to the appropriate type where possible
    match R.get name with
    | some func_meta => do
      let func_args ← coerce_args R schema args func_meta.args
      pure (.ScalarFunction name func_args return_type)
    | none => .error (.general ("Invalid scalar function " ++ name))
  | .AggregateFunction name args return_type => do
    pure (.AggregateFunction name (← rewrite_expr_list_core R schema args) return_type)
  | .Cast e data_type => pure (.Cast e data_type)
  | .Column name => pure (.Column name)
  | .Alias e aname => do
    pure (.Alias (← rewrite_expr R schema e) aname)
  | .Literal v => pure (.Literal v)
  | .Not e => pure (.Not e)
  | .Sort e asc => pure (.Sort e asc)
  | .Wildcard => .error (.general "Wildcard expressions are not valid in a logical query plan")
  | .Nested e => rewrite_expr R schema e

/-- The scalar-function argument loop of `rewrite_expr` (`for i in
0..args.len()`): at each index the registry entry's parameter is read
first — without a bounds check in the source, so running out of
parameters is the modelled index panic — then the argument is rewritten
and, when its resolved type differs from the declared parameter type,
cast to the supertype of the two. -/
def coerce_args (R : ScalarFunctionRegistry) (schema : Schema) :
    List Expr → List Field → Result (List Expr)
  | [], _ => pure []
  | _ :: _, [] => .error .indexOutOfBounds
  | a :: as, field :: fields => do
    let expr ← rewrite_expr R schema a
    let actual_type ← expr.get_type schema
    let required_type := field.data_type
    let coerced ←
      if actual_type = required_type then pure expr
      else do
        let super_type ← get_supertype actual_type required_type
        expr.cast_to super_type schema
    let rest ← coerce_args R schema as fields
    pure (coerced :: rest)

/-- Sequential rewrite of an expression list (`rewrite_expr_list` and
the aggregate-argument `map`/`collect` in the source). -/
def rewrite_expr_list_core (R : ScalarFunctionRegistry) (schema : Schema) :
    List Expr → Result (List Expr)
  | [] => pure []
  | e :: es => do
    pure ((← rewrite_expr R schema e) :: (← rewrite_expr_list_core R schema es))
end

/-- `TypeCoercionRule::rewrite_expr_list`. -/
def rewrite_expr_list (R : ScalarFunctionRegistry) (schema : Schema) (expr : List Expr) :
    Result (List Expr) :=
  rewrite_expr_list_core R schema expr

def schemaA : Schema :=
  ⟨[⟨"c0", .Int32, true⟩, ⟨"c1", .Int64, true⟩]⟩

mutual
/-- Deterministic human-readable rendering of expressions (spec §6),
matching the Debug output asserted by the source's tests: columns as
`#name`, casts as `CAST(<expr> AS <Type>)`, binary expressions as
`<left> <Operator> <right>`. -/
def Expr.fmt : Expr → String
  | .BinaryExpr l op r => l.fmt ++ " " ++ op.fmt ++ " " ++ r.fmt
  | .IsNull e => e.fmt ++ " IS NULL"
  | .IsNotNull e => e.fmt ++ " IS NOT NULL"
  | .ScalarFunction name args _ => name ++ "(" ++ fmt_list args ++ ")"
  | .AggregateFunction name args _ => name ++ "(" ++ fmt_list args ++ ")"
  | .Cast e data_type => "CAST(" ++ e.fmt ++ " AS " ++ data_type.fmt ++ ")"
  | .Column name => "#" ++ name
  | .Alias e aname => e.fmt ++ " AS " ++ aname
  | .Literal v => v.fmt
  | .Not e => "NOT " ++ e.fmt
  | .Sort e asc => e.fmt ++ (if asc then " ASC" else " DESC")
  | .Wildcard => "*"
  | .Nested e => "(" ++ e.fmt ++ ")"

/-- Comma-separated rendering of an expression list. -/
def fmt_list : List Expr → String
  | [] => ""
  | [e] => e.fmt
  | e :: es => e.fmt ++ ", " ++ fmt_list es
end

/-- Output field name of an expression, used when a plan node's schema
is recomputed from its expression list (modelled: the spec only asks
for a deterministic derivation; columns and aliases name their field,
any other expression is named by its rendering). -/
def Expr.field_name : Expr → String
  | .Column name => name
  | .Alias _ aname => aname
  | e => e.fmt

/-- The logical plan grammar: the closed recursive variant set of
`LogicalPlan`, exactly the variants matched by `optimize` in the
source.  Leaf scans carry only what the pass consults: their schema. -/
inductive LogicalPlan where
  | Projection (expr : List Expr) (input : LogicalPlan) (schema : Schema)
  | Selection (expr : Expr) (input : LogicalPlan)
  | Aggregate (input : LogicalPlan) (group_expr : List Expr) (aggr_expr : List Expr) (schema : Schema)
  | Limit (n : Nat) (input : LogicalPlan)
  | Sort (expr : List Expr) (input : LogicalPlan)
  | TableScan (schema : Schema)
  | InMemoryScan (schema : Schema)
  | ParquetScan (schema : Schema)
  | CsvScan (schema : Schema)
  | EmptyRelation (schema : Schema)
  | CreateExternalTable (schema : Schema)
  | Explain (verbose : Bool) (plan : LogicalPlan) (stringified_plans : List String) (schema : Schema)
  deriving Repr

/-- The output schema attached to each plan node (spec §3); nodes that
do not change the row shape expose their input's schema. -/
def LogicalPlan.schema : LogicalPlan → Schema
  | .Projection _ _ schema => schema
  | .Selection _ input => input.schema
  | .Aggregate _ _ _ schema => schema
  | .Limit _ input => input.schema
  | .Sort _ input => input.schema
  | .TableScan schema => schema
  | .InMemoryScan schema => schema
  | .ParquetScan schema => schema
  | .CsvScan schema => schema
  | .EmptyRelation schema => schema
  | .CreateExternalTable schema => schema
  | .Explain _ _ _ schema => schema

/-- Modelled from the spec: the plan builder's schema derivation is not
part of the source under verification; spec §3 requires a node's schema
to be recomputed purely from its expressions and its input's schema. -/
def expr_to_field (e : Expr) (input_schema : Schema) : Result Field := do
  let t ← e.get_type input_schema
  pure ⟨e.field_name, t, true⟩

def exprlist_to_fields : List Expr → Schema → Result (List Field)
  | [], _ => pure []
  | e :: es, s => do
    pure ((← expr_to_field e s) :: (← exprlist_to_fields es s))

/-- Modelled from the spec: `LogicalPlanBuilder` is not part of the
source under verification; spec §4.4/§7 fix what type coercion uses of
it: each construction validates the node and recomputes its output
schema from the new expression list (rejecting duplicate field names,
error kind (e)). -/
def LogicalPlanBuilder.project (input : LogicalPlan) (expr : List Expr) : Result LogicalPlan := do
  let fields ← exprlist_to_fields expr input.schema
  if (fields.map Field.name).Nodup then
    pure (.Projection expr input ⟨fields⟩)
  else
    .error (.general "Projections require unique expression names")

/-- Modelled from the spec: selection keeps its input's schema. -/
def LogicalPlanBuilder.filter (input : LogicalPlan) (expr : Expr) : Result LogicalPlan :=
  pure (.Selection expr input)

/-- Modelled from the spec: the aggregate's schema is recomputed from
the group-by list followed by the aggregate list. -/
def LogicalPlanBuilder.aggregate (input : LogicalPlan) (group_expr aggr_expr : List Expr) :
    Result LogicalPlan := do
  let group_fields ← exprlist_to_fields group_expr input.schema
  let aggr_fields ← exprlist_to_fields aggr_expr input.schema
  if ((group_fields ++ aggr_fields).map Field.name).Nodup then
    pure (.Aggregate input group_expr aggr_expr ⟨group_fields ++ aggr_fields⟩)
  else
    .error (.general "Aggregations require unique expression names")

/-- Modelled from the spec: limit copies the row bound unchanged. -/
def LogicalPlanBuilder.limit (input : LogicalPlan) (n : Nat) : Result LogicalPlan :=
  pure (.Limit n input)

/-- Modelled from the spec: sort keeps its input's schema. -/
def LogicalPlanBuilder.sort (input : LogicalPlan) (expr : List Expr) : Result LogicalPlan :=
  pure (.Sort expr input)

/-- `TypeCoercionRule::optimize` (the `OptimizerRule` implementation):
post-order traversal that optimizes the child plan first, then rewrites
the node's own expression lists — against `input.schema()`, the
original child's schema — and reconstructs the node via the builder.
The `Explain` arm delegates to `utils::optimize_explain`, inlined here
(see `optimize_explain` below for the standalone form). -/
def optimize (R : ScalarFunctionRegistry) : LogicalPlan → Result LogicalPlan
  | .Projection expr input _ => do
    let new_input ← optimize R input
    let new_expr ← rewrite_expr_list R input.schema expr
    LogicalPlanBuilder.project new_input new_expr
  | .Selection expr input => do
    let new_input ← optimize R input
    let new_expr ← rewrite_expr R input.schema expr
    LogicalPlanBuilder.filter new_input new_expr
  | .Aggregate input group_expr aggr_expr _ => do
    let new_input ← optimize R input
    let g ← rewrite_expr_list R input.schema group_expr
    let a ← rewrite_expr_list R input.schema aggr_expr
    LogicalPlanBuilder.aggregate new_input g a
  | .Limit n input => do
    let new_input ← optimize R input
    LogicalPlanBuilder.limit new_input n
  | .Sort expr input => do
    let new_input ← optimize R input
    let new_expr ← rewrite_expr_list R input.schema expr
    LogicalPlanBuilder.sort new_input new_expr
  -- the following rules do not have inputs and do not need to be re-written
  | .TableScan schema => pure (.TableScan schema)
  | .InMemoryScan schema => pure (.InMemoryScan schema)
  | .ParquetScan schema => pure (.ParquetScan schema)
  | .CsvScan schema => pure (.CsvScan schema)
  | .EmptyRelation schema => pure (.EmptyRelation schema)
  | .CreateExternalTable schema => pure (.CreateExternalTable schema)
  | .Explain verbose plan stringified_plans schema => do
    let p ← optimize R plan
    pure (.Explain verbose p stringified_plans schema)

/-- Modelled from the spec: `utils::optimize_explain` is not part of
the source under verification; spec §4.4 fixes its behavior: re-invoke
the rule on the wrapped plan, preserving the verbosity flag and the
accumulated stringified-plan snapshots. -/
def optimize_explain (R : ScalarFunctionRegistry) (verbose : Bool) (plan : LogicalPlan)
    (stringified_plans : List String) (schema : Schema) : Result LogicalPlan := do
  let p ← optimize R plan
  pure (.Explain verbose p stringified_plans schema)

def scanPQ : LogicalPlan := .TableScan ⟨[⟨"P", .Int32, true⟩, ⟨"Q", .Int64, true⟩]⟩

def childX : LogicalPlan :=
  .Projection [.Alias (.BinaryExpr (.Column "P") .Plus (.Column "Q")) "x"] scanPQ
    ⟨[⟨"x", .Int32, true⟩]⟩

def parentP0 : LogicalPlan :=
  .Projection [.BinaryExpr (.Column "x") .Plus (.Literal (.int64 5))] childX
    ⟨[⟨"x Plus Int64(5)", .Int32, true⟩]⟩

mutual
/-- An expression contains a `Wildcard` somewhere, at any nesting depth
and inside any variant. -/
def contains_wildcard : Expr → Bool
  | .BinaryExpr l _ r => contains_wildcard l || contains_wildcard r
  | .IsNull e => contains_wildcard e
  | .IsNotNull e => contains_wildcard e
  | .ScalarFunction _ args _ => contains_wildcard_list args
  | .AggregateFunction _ args _ => contains_wildcard_list args
  | .Cast e _ => contains_wildcard e
  | .Column _ => false
  | .Alias e _ => contains_wildcard e
  | .Literal _ => false
  | .Not e => contains_wildcard e
  | .Sort e _ => contains_wildcard e
  | .Wildcard => true
  | .Nested e => contains_wildcard e

def contains_wildcard_list : List Expr → Bool
  | [] => false
  | e :: es => contains_wildcard e || contains_wildcard_list es
end

mutual
/-- An expression contains a `Wildcard` in a position the rewriter's
recursion actually visits: `Not`, `Sort` and `Cast` sub-expressions are
excluded because `rewrite_expr` returns those variants unchanged
without recursing. -/
def reaches_wildcard : Expr → Bool
  | .BinaryExpr l _ r => reaches_wildcard l || reaches_wildcard r
  | .IsNull e => reaches_wildcard e
  | .IsNotNull e => reaches_wildcard e
  | .ScalarFunction _ args _ => reaches_wildcard_list args
  | .AggregateFunction _ args _ => reaches_wildcard_list args
  | .Cast _ _ => false
  | .Column _ => false
  | .Alias e _ => reaches_wildcard e
  | .Literal _ => false
  | .Not _ => false
  | .Sort _ _ => false
  | .Wildcard => true
  | .Nested e => reaches_wildcard e

def reaches_wildcard_list : List Expr → Bool
  | [] => false
  | e :: es => reaches_wildcard e || reaches_wildcard_list es
end

mutual
/-- Every scalar-function call in the expression whose name resolves in
the registry passes at most as many arguments as the registry entry
declares parameters (the precondition under which the source's
unchecked indexing `func_meta.args[i]` cannot go out of bounds). -/
def args_within_arity (R : ScalarFunctionRegistry) : Expr → Bool
  | .BinaryExpr l _ r => args_within_arity R l && args_within_arity R r
  | .IsNull e => args_within_arity R e
  | .IsNotNull e => args_within_arity R e
  | .ScalarFunction name args _ =>
    (match R.get name with
     | some func_meta => decide (args.length ≤ func_meta.args.length)
     | none => true) && args_within_arity_list R args
  | .AggregateFunction _ args _ => args_within_arity_list R args
  | .Cast e _ => args_within_arity R e
  | .Column _ => true
  | .Alias e _ => args_within_arity R e
  | .Literal _ => true
  | .Not e => args_within_arity R e
  | .Sort e _ => args_within_arity R e
  | .Wildcard => true
  | .Nested e => args_within_arity R e

def args_within_arity_list (R : ScalarFunctionRegistry) : List Expr → Bool
  | [] => true
  | e :: es => args_within_arity R e && args_within_arity_list R es
end

/-- A rewritten binary expression whose two operands resolve, under the
governing schema, to the same type (claim-side check for the
binary-expression post-condition). -/
def has_equal_operand_types (schema : Schema) : Expr → Bool
  | .BinaryExpr l _ r =>
    match l.get_type schema, r.get_type schema with
    | .ok a, .ok b => a == b
    | _, _ => false
  | _ => false

/-- Claim-side check of one rewritten scalar-function argument list
against the registry's declared parameters: each argument is rewritten;
an argument whose resolved type equals the declared parameter type must
be kept unchanged, and one whose type differs must be cast to the
supertype of the actual and declared types (not necessarily to the
declared type itself).  Resulting expressions are compared by their
deterministic rendering, as the source's own tests do. -/
def check_args (R : ScalarFunctionRegistry) (schema : Schema) :
    List Expr → List Field → List Expr → Bool
  | [], _, [] => true
  | a :: as, field :: fields, res :: ress =>
    (match rewrite_expr R schema a with
     | .ok a2 =>
       match a2.get_type schema with
       | .ok actual =>
         if actual = field.data_type then res.fmt == a2.fmt
         else
           match get_supertype actual field.data_type with
           | .ok st => res.fmt == (if actual = st then a2 else Expr.Cast a2 st).fmt
           | .error _ => false
       | .error _ => false
     | .error _ => false) && check_args R schema as fields ress
  | _, _, _ => false

/-- Claim-side check of a whole rewritten scalar-function call: the
name and declared return type are preserved and every argument obeys
`check_args` against the registry entry's parameter list. -/
def check_scalar_coercion (R : ScalarFunctionRegistry) (schema : Schema)
    (orig result : Expr) : Bool :=
  match orig, result with
  | .ScalarFunction name args rt, .ScalarFunction name2 args2 rt2 =>
    (name == name2) && (rt == rt2) &&
      (match R.get name with
       | some func_meta => check_args R schema args func_meta.args args2
       | none => false)
  | _, _ => false

/-- Registry used by the C5 witness: `f` declares parameters
`(a: Int64, b: Int32)`. -/
def registryC5 : ScalarFunctionRegistry :=
  [("f", ⟨"f", [⟨"a", .Int64, true⟩, ⟨"b", .Int32, true⟩], .Utf8⟩)]

def childCD : LogicalPlan :=
  .Projection [.Alias (.BinaryExpr (.Column "P") .Plus (.Column "Q")) "d",
               .Alias (.Column "P") "c"] scanPQ
    ⟨[⟨"d", .Int32, true⟩, ⟨"c", .Int32, true⟩]⟩

def planC4 : LogicalPlan :=
  .Projection [.BinaryExpr (.Column "c") .Plus (.Column "d")] childCD
    ⟨[⟨"#c Plus #d", .Int32, true⟩]⟩

/-- The expression lists carried by the top node of a plan. -/
def LogicalPlan.top_exprs : LogicalPlan → List Expr
  | .Projection expr _ _ => expr
  | .Selection expr _ => [expr]
  | .Aggregate _ group_expr aggr_expr _ => group_expr ++ aggr_expr
  | .Sort expr _ => expr
  | _ => []

/-- The rewritten form of `planC4` under an empty registry. -/
def planC4opt : LogicalPlan :=
  .Projection [.BinaryExpr (.Column "c") .Plus (.Column "d")]
    (.Projection [.Alias (.BinaryExpr (.Cast (.Column "P") .Int64) .Plus (.Column "Q")) "d",
                  .Alias (.Column "P") "c"] scanPQ
      ⟨[⟨"d", .Int64, true⟩, ⟨"c", .Int32, true⟩]⟩)
    ⟨[⟨"#c Plus #d", .Int32, true⟩]⟩

/-- The claim-side variant of `optimize`, written from the spec's
wording: recurse into the child first, then rewrite the node's own
expression lists against the schema of the *already-rewritten* child
plan, then reconstruct via the builder.  (It differs from the source's
`optimize` only in the schema passed to the expression rewrites.) -/
def optimize_rewritten_child_schema (R : ScalarFunctionRegistry) :
    LogicalPlan → Result LogicalPlan
  | .Projection expr input _ => do
    let new_input ← optimize_rewritten_child_schema R input
    let new_expr ← rewrite_expr_list R new_input.schema expr
    LogicalPlanBuilder.project new_input new_expr
  | .Selection expr input => do
    let new_input ← optimize_rewritten_child_schema R input
    let new_expr ← rewrite_expr R new_input.schema expr
    LogicalPlanBuilder.filter new_input new_expr
  | .Aggregate input group_expr aggr_expr _ => do
    let new_input ← optimize_rewritten_child_schema R input
    let g ← rewrite_expr_list R new_input.schema group_expr
    let a ← rewrite_expr_list R new_input.schema aggr_expr
    LogicalPlanBuilder.aggregate new_input g a
  | .Limit n input => do
    let new_input ← optimize_rewritten_child_schema R input
    LogicalPlanBuilder.limit new_input n
  | .Sort expr input => do
    let new_input ← optimize_rewritten_child_schema R input
    let new_expr ← rewrite_expr_list R new_input.schema expr
    LogicalPlanBuilder.sort new_input new_expr
  | .TableScan schema => pure (.TableScan schema)
  | .InMemoryScan schema => pure (.InMemoryScan schema)
  | .ParquetScan schema => pure (.ParquetScan schema)
  | .CsvScan schema => pure (.CsvScan schema)
  | .EmptyRelation schema => pure (.EmptyRelation schema)
  | .CreateExternalTable schema => pure (.CreateExternalTable schema)
  | .Explain verbose plan stringified_plans schema => do
    let p ← optimize_rewritten_child_schema R plan
    pure (.Explain verbose p stringified_plans schema)

/-- The amended claim's wording as a definition: recurse into the child
first, then rewrite the node's own expression lists against the
*original* child plan's schema, then reconstruct via the builder. -/
def optimize_original_child_schema (R : ScalarFunctionRegistry) :
    LogicalPlan → Result LogicalPlan
  | .Projection expr input _ => do
    let new_input ← optimize_original_child_schema R input
    let new_expr ← rewrite_expr_list R input.schema expr
    LogicalPlanBuilder.project new_input new_expr
  | .Selection expr input => do
    let new_input ← optimize_original_child_schema R input
    let new_expr ← rewrite_expr R input.schema expr
    LogicalPlanBuilder.filter new_input new_expr
  | .Aggregate input group_expr aggr_expr _ => do
    let new_input ← optimize_original_child_schema R input
    let g ← rewrite_expr_list R input.schema group_expr
    let a ← rewrite_expr_list R input.schema aggr_expr
    LogicalPlanBuilder.aggregate new_input g a
  | .Limit n input => do
    let new_input ← optimize_original_child_schema R input
    LogicalPlanBuilder.limit new_input n
  | .Sort expr input => do
    let new_input ← optimize_original_child_schema R input
    let new_expr ← rewrite_expr_list R input.schema expr
    LogicalPlanBuilder.sort new_input new_expr
  | .TableScan schema => pure (.TableScan schema)
  | .InMemoryScan schema => pure (.InMemoryScan schema)
  | .ParquetScan schema => pure (.ParquetScan schema)
  | .CsvScan schema => pure (.CsvScan schema)
  | .EmptyRelation schema => pure (.EmptyRelation schema)
  | .CreateExternalTable schema => pure (.CreateExternalTable schema)
  | .Explain verbose plan stringified_plans schema => do
    let p ← optimize_original_child_schema R plan
    pure (.Explain verbose p stringified_plans schema)

theorem optimize_explain_arm (R : ScalarFunctionRegistry) (verbose : Bool) (plan : LogicalPlan)
    (stringified_plans : List String) (schema : Schema) :
    optimize R (.Explain verbose plan stringified_plans schema) =
      optimize_explain R verbose plan stringified_plans schema := rfl

/-! Helper lemmas about `Result` (the `Except` error monad). -/
theorem result_pure_eq_ok {α : Type} (a : α) : (pure a : Result α) = .ok a := rfl

theorem result_ok_bind {α β : Type} (a : α) (f : α → Result β) :
    (Except.ok a : Result α) >>= f = f a := rfl

theorem result_error_bind {α β : Type} (e : ExecutionError) (f : α → Result β) :
    (Except.error e : Result α) >>= f = .error e := rfl

theorem result_bind_ok {α β : Type} {x : Result α} {f : α → Result β} {b : β} :
    x >>= f = .ok b ↔ ∃ a, x = .ok a ∧ f a = .ok b := by
  cases x <;> simp [Bind.bind, Except.bind]

/-- Simultaneous structural induction over expressions and expression
lists, specialized from the nested recursor `Expr.rec`. -/
theorem expr_induction {P : Expr → Prop} {Q : List Expr → Prop}
    (h1 : ∀ l op r, P l → P r → P (.BinaryExpr l op r))
    (h2 : ∀ e, P e → P (.IsNull e))
    (h3 : ∀ e, P e → P (.IsNotNull e))
    (h4 : ∀ n args rt, Q args → P (.ScalarFunction n args rt))
    (h5 : ∀ n args rt, Q args → P (.AggregateFunction n args rt))
    (h6 : ∀ e t, P e → P (.Cast e t))
    (h7 : ∀ n, P (.Column n))
    (h8 : ∀ e a, P e → P (.Alias e a))
    (h9 : ∀ v, P (.Literal v))
    (h10 : ∀ e, P e → P (.Not e))
    (h11 : ∀ e b, P e → P (.Sort e b))
    (h12 : P .Wildcard)
    (h13 : ∀ e, P e → P (.Nested e))
    (h14 : Q [])
    (h15 : ∀ e es, P e → Q es → Q (e :: es)) :
    (∀ e, P e) ∧ (∀ es, Q es) := by
  have hP : ∀ e, P e := fun e =>
    Expr.rec h1 h2 h3 h4 h5 h6 h7 h8 h9 h10 h11 h12 h13 h14 h15 e
  exact ⟨hP, fun es => List.rec h14 (fun e es' ih => h15 e es' (hP e) ih) es⟩

/-- An expression successfully cast to a target type resolves to that
target type. -/
theorem cast_to_ok_type {e : Expr} {t : DataType} {s : Schema} {e' : Expr}
    (h : e.cast_to t s = .ok e') : e'.get_type s = .ok t := by
  unfold Expr.cast_to at h
  rcases result_bind_ok.mp h with ⟨ty, hty, h⟩
  split at h
  case isTrue heq =>
    rw [result_pure_eq_ok] at h
    injection h with h
    subst h
    rw [hty, heq]
  case isFalse hne =>
    rw [result_pure_eq_ok] at h
    injection h with h
    subst h
    rfl

/-- The supertype is absorbing on its own result: promoting the
supertype against the same peer changes nothing. -/
theorem get_supertype_absorb : ∀ a b s : DataType,
    get_supertype a b = .ok s → get_supertype s b = .ok s := by decide

/-- Casting an expression to the type it already has succeeds and
returns it unchanged. -/
theorem cast_to_own_type {e : Expr} {t : DataType} {s : Schema}
    (h : e.get_type s = .ok t) : e.cast_to t s = .ok e := by
  unfold Expr.cast_to
  rw [h, result_ok_bind, if_pos rfl]
  rfl

/-- C3: for every binary expression and every schema under which
rewriting succeeds, the expression returned by `rewrite_expr` is a
binary expression whose left and right operands have equal resolved
types under that schema. -/
theorem binary_rewrite_equalizes_operand_types
    (R : ScalarFunctionRegistry) (schema : Schema)
    (l : Expr) (op : Operator) (r : Expr) (e' : Expr)
    (h : rewrite_expr R schema (.BinaryExpr l op r) = .ok e') :
    has_equal_operand_types schema e' = true := by
  simp only [rewrite_expr] at h
  rcases result_bind_ok.mp h with ⟨l', hl, h⟩
  rcases result_bind_ok.mp h with ⟨r', hr, h⟩
  rcases result_bind_ok.mp h with ⟨lt, hlt, h⟩
  rcases result_bind_ok.mp h with ⟨rt, hrt, h⟩
  split at h
  case isTrue heq =>
    rw [result_pure_eq_ok] at h
    injection h with h
    subst h
    simp [has_equal_operand_types, hlt, hrt, heq]
  case isFalse hne =>
    rcases result_bind_ok.mp h with ⟨st, hst, h⟩
    rcases result_bind_ok.mp h with ⟨lc, hlc, h⟩
    rcases result_bind_ok.mp h with ⟨rc, hrc, h⟩
    rw [result_pure_eq_ok] at h
    injection h with h
    subst h
    simp [has_equal_operand_types, cast_to_ok_type hlc, cast_to_ok_type hrc]

/-- C3 witness: the rewritten scenario-A expression has equal operand
types. -/
theorem binary_rewrite_equalizes_operand_types_witness :
    has_equal_operand_types schemaA
      (.BinaryExpr (.Cast (.Column "c0") .Int64) .Plus (.Column "c1")) = true :=
  binary_rewrite_equalizes_operand_types [] schemaA
    (.Column "c0") .Plus (.Column "c1")
    (.BinaryExpr (.Cast (.Column "c0") .Int64) .Plus (.Column "c1")) (by rfl)

/-- C6: rewriting a scalar-function call whose name is absent from the
registry fails with an error naming the function; no expression (and in
particular no cast) is returned. -/
theorem unknown_scalar_function_fails
    (R : ScalarFunctionRegistry) (schema : Schema)
    (name : String) (args : List Expr) (rt : DataType)
    (h : R.get name = none) :
    rewrite_expr R schema (.ScalarFunction name args rt) =
      .error (.general ("Invalid scalar function " ++ name)) := by
  simp only [rewrite_expr, h]

/-- C6 witness: a registry without `my_sqrt` rejects a call to it. -/
theorem unknown_scalar_function_fails_witness :
    ScalarFunctionRegistry.get [] "my_sqrt" = none ∧
      rewrite_expr [] schemaA (.ScalarFunction "my_sqrt" [.Column "c0"] .Float64) =
        .error (.general ("Invalid scalar function " ++ "my_sqrt")) :=
  ⟨rfl, unknown_scalar_function_fails [] schemaA "my_sqrt" [.Column "c0"] .Float64 rfl⟩

/-- The source's hand-rolled sequential list rewrite is `mapM`. -/
theorem rewrite_expr_list_core_eq_mapM (R : ScalarFunctionRegistry) (schema : Schema) :
    ∀ es : List Expr,
      rewrite_expr_list_core R schema es = es.mapM (rewrite_expr R schema) := by
  intro es
  induction es with
  | nil => rfl
  | cons e es ih =>
    rw [List.mapM_cons, ← ih]
    rfl

/-- C7: rewriting an aggregate-function call only maps the rewriter
over the argument list — for every registry and every function name,
with no registry lookup and no comparison of argument types against any
target — and rebuilds the call with the original name and return
type. -/
theorem aggregate_rewrite_is_argument_map
    (R : ScalarFunctionRegistry) (schema : Schema)
    (n : String) (args : List Expr) (rt : DataType) :
    rewrite_expr R schema (.AggregateFunction n args rt) =
      Except.map (fun as => Expr.AggregateFunction n as rt)
        (args.mapM (rewrite_expr R schema)) := by
  simp only [rewrite_expr, rewrite_expr_list_core_eq_mapM]
  cases args.mapM (rewrite_expr R schema) <;> rfl

/-- C8: under the schema `{c0: Int32, c1: Int64}` the expression
`c0 + c1` is rewritten, for every registry, to
`CAST(c0 AS Int64) + c1`: the narrower operand is cast to `Int64` and
the `Int64` operand is left unchanged. -/
theorem scenario_a_add_i32_i64 (R : ScalarFunctionRegistry) :
    rewrite_expr R schemaA (.BinaryExpr (.Column "c0") .Plus (.Column "c1")) =
      .ok (.BinaryExpr (.Cast (.Column "c0") .Int64) .Plus (.Column "c1")) := rfl

/-- C9: the supertype function is symmetric on every pair of types for
which a common promotion type exists. -/
theorem get_supertype_symm :
    ∀ a b : DataType, (get_supertype a b).isOk = true →
      get_supertype a b = get_supertype b a := by decide

/-- C9 witness: symmetry at the concrete pair `(Int32, Int64)`. -/
theorem get_supertype_symm_witness :
    (get_supertype .Int32 .Int64).isOk = true ∧
      get_supertype .Int32 .Int64 = get_supertype .Int64 .Int32 :=
  ⟨by decide, get_supertype_symm .Int32 .Int64 (by decide)⟩

/-- A successful rewrite implies the expression had no wildcard in any
position the rewriter recurses into (simultaneous with the two list
rewriting loops). -/
theorem rewrite_ok_no_reached_wildcard_all :
    (∀ e : Expr, ∀ (R : ScalarFunctionRegistry) (s : Schema) (e' : Expr),
        rewrite_expr R s e = .ok e' → reaches_wildcard e = false) ∧
    (∀ es : List Expr,
      (∀ (R : ScalarFunctionRegistry) (s : Schema) (params : List Field) (es' : List Expr),
          coerce_args R s es params = .ok es' → reaches_wildcard_list es = false) ∧
      (∀ (R : ScalarFunctionRegistry) (s : Schema) (es' : List Expr),
          rewrite_expr_list_core R s es = .ok es' → reaches_wildcard_list es = false)) := by
  apply expr_induction
  case h1 =>
    intro l op r ihl ihr R s e' h
    simp only [rewrite_expr] at h
    rcases result_bind_ok.mp h with ⟨l', hl, h⟩
    rcases result_bind_ok.mp h with ⟨r', hr, _⟩
    simp [reaches_wildcard, ihl R s l' hl, ihr R s r' hr]
  case h2 =>
    intro e ih R s e' h
    simp only [rewrite_expr] at h
    rcases result_bind_ok.mp h with ⟨i', hi, _⟩
    simp [reaches_wildcard, ih R s i' hi]
  case h3 =>
    intro e ih R s e' h
    simp only [rewrite_expr] at h
    rcases result_bind_ok.mp h with ⟨i', hi, _⟩
    simp [reaches_wildcard, ih R s i' hi]
  case h4 =>
    intro n args rt ih R s e' h
    simp only [rewrite_expr] at h
    rcases hR : ScalarFunctionRegistry.get R n with _ | meta <;> rw [hR] at h
    · simp at h
    · rcases result_bind_ok.mp h with ⟨args', hargs, _⟩
      simp [reaches_wildcard, ih.1 R s meta.args args' hargs]
  case h5 =>
    intro n args rt ih R s e' h
    simp only [rewrite_expr] at h
    rcases result_bind_ok.mp h with ⟨args', hargs, _⟩
    simp [reaches_wildcard, ih.2 R s args' hargs]
  case h6 => intro e t _ R s e' _; rfl
  case h7 => intro n R s e' _; rfl
  case h8 =>
    intro e a ih R s e' h
    simp only [rewrite_expr] at h
    rcases result_bind_ok.mp h with ⟨i', hi, _⟩
    simp [reaches_wildcard, ih R s i' hi]
  case h9 => intro v R s e' _; rfl
  case h10 => intro e _ R s e' _; rfl
  case h11 => intro e b _ R s e' _; rfl
  case h12 => intro R s e' h; simp only [rewrite_expr] at h; simp at h
  case h13 =>
    intro e ih R s e' h
    simp only [rewrite_expr] at h
    simp [reaches_wildcard, ih R s e' h]
  case h14 =>
    refine ⟨fun R s params es' _ => rfl, fun R s es' _ => rfl⟩
  case h15 =>
    intro e es ihe ihes
    constructor
    · intro R s params es' h
      cases params with
      | nil => simp only [coerce_args] at h; simp at h
      | cons f fs =>
        simp only [coerce_args] at h
        rcases result_bind_ok.mp h with ⟨a', ha, h⟩
        rcases result_bind_ok.mp h with ⟨ty, hty, h⟩
        split at h
        · rcases result_bind_ok.mp h with ⟨c, hc, h⟩
          rcases result_bind_ok.mp h with ⟨rest, hrest, _⟩
          simp [reaches_wildcard_list, ihe R s a' ha, ihes.1 R s fs rest hrest]
        · rcases result_bind_ok.mp h with ⟨st, hst, h⟩
          rcases result_bind_ok.mp h with ⟨c, hc, h⟩
          rcases result_bind_ok.mp h with ⟨rest, hrest, _⟩
          simp [reaches_wildcard_list, ihe R s a' ha, ihes.1 R s fs rest hrest]
    · intro R s es' h
      simp only [rewrite_expr_list_core] at h
      rcases result_bind_ok.mp h with ⟨a', ha, h⟩
      rcases result_bind_ok.mp h with ⟨rest, hrest, _⟩
      simp [reaches_wildcard_list, ihe R s a' ha, ihes.2 R s rest hrest]

/-- C1 (amended): rewriting fails for every expression containing a
wildcard in a position the rewriter recurses into (any nesting of
binary, null-predicate, function-argument, alias and nested positions);
wildcards hidden under `Not`, `Sort` or `Cast` are returned unchanged
by the corresponding pass-through arms. -/
theorem wildcard_reachable_rewrite_fails
    (R : ScalarFunctionRegistry) (schema : Schema) (e : Expr)
    (h : reaches_wildcard e = true) :
    (rewrite_expr R schema e).isOk = false := by
  cases hres : rewrite_expr R schema e with
  | ok e' =>
    have := rewrite_ok_no_reached_wildcard_all.1 e R schema e' hres
    rw [h] at this
    cases this
  | error err => rfl

/-- C1 witness: a wildcard under a null-predicate is rejected. -/
theorem wildcard_reachable_rewrite_fails_witness :
    reaches_wildcard (.IsNull .Wildcard) = true ∧
      (rewrite_expr [] schemaA (.IsNull .Wildcard)).isOk = false :=
  ⟨rfl, wildcard_reachable_rewrite_fails [] schemaA (.IsNull .Wildcard) rfl⟩

/-- C1 counterexample: `Not(Wildcard)` contains a wildcard, yet
`rewrite_expr` succeeds (the `Not` arm returns the expression unchanged
without recursing), refuting the claim for every nesting position. -/
theorem wildcard_under_not_rewrites_successfully :
    contains_wildcard (.Not .Wildcard) = true ∧
      rewrite_expr [] schemaA (.Not .Wildcard) = .ok (.Not .Wildcard) :=
  ⟨rfl, rfl⟩

/-! C10: absence of the modelled index panic under the arity
precondition. -/
theorem result_pure_ne_error {α : Type} (a : α) (err : ExecutionError) :
    (pure a : Result α) ≠ .error err := fun h => Except.noConfusion h

theorem no_oob_bind {α β : Type} {x : Result α} {f : α → Result β}
    (hx : x ≠ .error .indexOutOfBounds)
    (hf : ∀ a, x = .ok a → f a ≠ .error .indexOutOfBounds) :
    x >>= f ≠ .error .indexOutOfBounds := by
  cases hx2 : x with
  | error e =>
    intro hc
    rw [result_error_bind] at hc
    injection hc with hc
    exact hx (by rw [hx2, hc])
  | ok a =>
    rw [result_ok_bind]
    exact hf a hx2

/-- The expression type resolver never reports the index panic. -/
theorem get_type_no_oob : ∀ (e : Expr) (s : Schema),
    e.get_type s ≠ .error .indexOutOfBounds := by
  intro e s
  induction e, s using Expr.get_type.induct <;>
    simp_all [Expr.get_type]

/-- The supertype resolver never reports the index panic. -/
theorem get_supertype_no_oob : ∀ a b : DataType,
    get_supertype a b ≠ .error .indexOutOfBounds := by decide

/-- Cast insertion never reports the index panic. -/
theorem cast_to_no_oob (e : Expr) (t : DataType) (s : Schema) :
    e.cast_to t s ≠ .error .indexOutOfBounds := by
  unfold Expr.cast_to
  apply no_oob_bind (get_type_no_oob e s)
  intro ty _
  split <;> exact result_pure_ne_error _ _

/-- Under the arity precondition, neither the rewriter nor either of
its list loops can reach the out-of-bounds parameter lookup. -/
theorem rewrite_no_oob_all :
    (∀ e : Expr, ∀ (R : ScalarFunctionRegistry) (s : Schema),
        args_within_arity R e = true →
        rewrite_expr R s e ≠ .error .indexOutOfBounds) ∧
    (∀ es : List Expr,
      (∀ (R : ScalarFunctionRegistry) (s : Schema) (params : List Field),
          args_within_arity_list R es = true → es.length ≤ params.length →
          coerce_args R s es params ≠ .error .indexOutOfBounds) ∧
      (∀ (R : ScalarFunctionRegistry) (s : Schema),
          args_within_arity_list R es = true →
          rewrite_expr_list_core R s es ≠ .error .indexOutOfBounds)) := by
  apply expr_induction
  case h1 =>
    intro l op r ihl ihr R s har
    simp only [args_within_arity, Bool.and_eq_true] at har
    simp only [rewrite_expr]
    apply no_oob_bind (ihl R s har.1); intro l' _
    apply no_oob_bind (ihr R s har.2); intro r' _
    apply no_oob_bind (get_type_no_oob l' s); intro lt _
    apply no_oob_bind (get_type_no_oob r' s); intro rt _
    split
    · exact result_pure_ne_error _ _
    · apply no_oob_bind (get_supertype_no_oob lt rt); intro st _
      apply no_oob_bind (cast_to_no_oob l' st s); intro lc _
      apply no_oob_bind (cast_to_no_oob r' st s); intro rc _
      exact result_pure_ne_error _ _
  case h2 =>
    intro e ih R s har
    simp only [args_within_arity] at har
    simp only [rewrite_expr]
    apply no_oob_bind (ih R s har); intro i' _
    exact result_pure_ne_error _ _
  case h3 =>
    intro e ih R s har
    simp only [args_within_arity] at har
    simp only [rewrite_expr]
    apply no_oob_bind (ih R s har); intro i' _
    exact result_pure_ne_error _ _
  case h4 =>
    intro n args rt ih R s har
    simp only [args_within_arity, Bool.and_eq_true] at har
    simp only [rewrite_expr]
    rcases hR : ScalarFunctionRegistry.get R n with _ | meta
    · intro hc; injection hc with hc; exact ExecutionError.noConfusion hc
    · rw [hR] at har
      have hlen : args.length ≤ meta.args.length := by
        have := har.1
        simpa using this
      apply no_oob_bind (ih.1 R s meta.args har.2 hlen); intro args' _
      exact result_pure_ne_error _ _
  case h5 =>
    intro n args rt ih R s har
    simp only [args_within_arity] at har
    simp only [rewrite_expr]
    apply no_oob_bind (ih.2 R s har); intro args' _
    exact result_pure_ne_error _ _
  case h6 =>
    intro e t _ R s _
    exact result_pure_ne_error _ _
  case h7 => intro n R s _; exact result_pure_ne_error _ _
  case h8 =>
    intro e a ih R s har
    simp only [args_within_arity] at har
    simp only [rewrite_expr]
    apply no_oob_bind (ih R s har); intro i' _
    exact result_pure_ne_error _ _
  case h9 => intro v R s _; exact result_pure_ne_error _ _
  case h10 => intro e _ R s _; exact result_pure_ne_error _ _
  case h11 => intro e b _ R s _; exact result_pure_ne_error _ _
  case h12 =>
    intro R s _
    intro hc
    injection hc with hc
    exact ExecutionError.noConfusion hc
  case h13 =>
    intro e ih R s har
    simp only [args_within_arity] at har
    simp only [rewrite_expr]
    exact ih R s har
  case h14 =>
    refine ⟨fun R s params _ _ => result_pure_ne_error _ _,
      fun R s _ => result_pure_ne_error _ _⟩
  case h15 =>
    intro e es ihe ihes
    constructor
    · intro R s params har hlen
      simp only [args_within_arity_list, Bool.and_eq_true] at har
      cases params with
      | nil => simp at hlen
      | cons f fs =>
        simp only [coerce_args]
        apply no_oob_bind (ihe R s har.1); intro a' _
        apply no_oob_bind (get_type_no_oob a' s); intro ty _
        have hlen2 : es.length ≤ fs.length := by
          simpa using hlen
        split
        · apply no_oob_bind (result_pure_ne_error _ _); intro c _
          apply no_oob_bind (ihes.1 R s fs har.2 hlen2); intro rest _
          exact result_pure_ne_error _ _
        · apply no_oob_bind (get_supertype_no_oob _ _); intro st _
          apply no_oob_bind (cast_to_no_oob a' st s); intro c _
          apply no_oob_bind (ihes.1 R s fs har.2 hlen2); intro rest _
          exact result_pure_ne_error _ _
    · intro R s har
      simp only [args_within_arity_list, Bool.and_eq_true] at har
      simp only [rewrite_expr_list_core]
      apply no_oob_bind (ihe R s har.1); intro a' _
      apply no_oob_bind (ihes.2 R s har.2); intro rest _
      exact result_pure_ne_error _ _

/-- C10: when every scalar-function call resolved by the registry
passes at most as many arguments as the registry entry declares
parameters, the rewriter can never reach the unchecked parameter
lookup: the error branch modelling the source's out-of-bounds index
panic is unreachable. -/
theorem rewrite_expr_no_index_panic_under_arity
    (R : ScalarFunctionRegistry) (schema : Schema) (e : Expr)
    (h : args_within_arity R e = true) :
    rewrite_expr R schema e ≠ .error .indexOutOfBounds :=
  rewrite_no_oob_all.1 e R schema h

/-- C10 witness: a one-parameter function applied to one argument
cannot reach the index panic. -/
theorem rewrite_expr_no_index_panic_under_arity_witness :
    args_within_arity [("my_sqrt", ⟨"my_sqrt", [⟨"x", .Float64, true⟩], .Float64⟩)]
        (.ScalarFunction "my_sqrt" [.Column "c0"] .Float64) = true ∧
      rewrite_expr [("my_sqrt", ⟨"my_sqrt", [⟨"x", .Float64, true⟩], .Float64⟩)] schemaA
        (.ScalarFunction "my_sqrt" [.Column "c0"] .Float64) ≠
        .error .indexOutOfBounds :=
  ⟨by decide, rewrite_expr_no_index_panic_under_arity _ schemaA _ (by decide)⟩

/-- The arity precondition is needed: with more arguments than declared
parameters the rewriter reaches the unchecked lookup and the modelled
index panic fires. -/
theorem rewrite_expr_index_panic_without_arity :
    rewrite_expr [("my_sqrt", ⟨"my_sqrt", [], .Float64⟩)] schemaA
      (.ScalarFunction "my_sqrt" [.Column "c0"] .Float64) =
      .error .indexOutOfBounds := rfl

/-- A successful run of the argument-coercion loop satisfies the
claim-side per-argument check. -/
theorem coerce_args_check (R : ScalarFunctionRegistry) (schema : Schema) :
    ∀ (args : List Expr) (params : List Field) (args2 : List Expr),
      coerce_args R schema args params = .ok args2 →
      check_args R schema args params args2 = true := by
  intro args
  induction args with
  | nil =>
    intro params args2 h
    simp only [coerce_args, result_pure_eq_ok] at h
    injection h with h
    subst h
    cases params <;> rfl
  | cons a as ih =>
    intro params args2 h
    cases params with
    | nil =>
      simp only [coerce_args] at h
      exact absurd h (by simp)
    | cons f fs =>
      simp only [coerce_args] at h
      rcases result_bind_ok.mp h with ⟨a2, ha, h⟩
      rcases result_bind_ok.mp h with ⟨actual, hty, h⟩
      split at h
      case isTrue heq =>
        rcases result_bind_ok.mp h with ⟨c, hc, h⟩
        rcases result_bind_ok.mp h with ⟨rest, hrest, h⟩
        rw [result_pure_eq_ok] at hc h
        injection hc with hc
        injection h with h
        subst hc
        subst h
        simp only [check_args, ha, hty, Bool.and_eq_true]
        refine ⟨?_, ih fs rest hrest⟩
        rw [if_pos heq]
        exact beq_self_eq_true _
      case isFalse hne =>
        rcases result_bind_ok.mp h with ⟨st, hst, h⟩
        rcases result_bind_ok.mp h with ⟨c, hc, h⟩
        rcases result_bind_ok.mp h with ⟨rest, hrest, h⟩
        rw [result_pure_eq_ok] at h
        injection h with h
        subst h
        have hc2 : c = if actual = st then a2 else .Cast a2 st := by
          unfold Expr.cast_to at hc
          rw [hty, result_ok_bind] at hc
          split at hc
          case isTrue heq2 =>
            rw [result_pure_eq_ok] at hc
            injection hc with hc
            rw [if_pos heq2, hc]
          case isFalse hne2 =>
            rw [result_pure_eq_ok] at hc
            injection hc with hc
            rw [if_neg hne2, hc]
        simp only [check_args, ha, hty, Bool.and_eq_true]
        refine ⟨?_, ih fs rest hrest⟩
        rw [if_neg hne, hst, hc2]
        exact beq_self_eq_true _

/-- C5: for every scalar-function call whose name resolves in the
registry, a successful rewrite preserves the call's name and declared
return type, keeps every argument whose resolved type equals the
declared parameter type unchanged, and casts every other argument to
`supertype(actual_type, declared_parameter_type)` — not necessarily to
the declared parameter type itself. -/
theorem scalar_function_coercion_casts_to_supertype
    (R : ScalarFunctionRegistry) (schema : Schema)
    (name : String) (args : List Expr) (rt : DataType)
    (func_meta : ScalarFunction) (res : Expr)
    (hlook : R.get name = some func_meta)
    (h : rewrite_expr R schema (.ScalarFunction name args rt) = .ok res) :
    check_scalar_coercion R schema (.ScalarFunction name args rt) res = true := by
  simp only [rewrite_expr, hlook] at h
  rcases result_bind_ok.mp h with ⟨args2, hargs, h⟩
  rw [result_pure_eq_ok] at h
  injection h with h
  subst h
  simp only [check_scalar_coercion, hlook, Bool.and_eq_true]
  exact ⟨⟨beq_self_eq_true _, beq_self_eq_true _⟩,
    coerce_args_check R schema args func_meta.args args2 hargs⟩

/-- C5 witness: under `{c0: Int32, c1: Int64}`, `f(c0, c1)` rewrites to
`f(CAST(c0 AS Int64), c1)` — the second argument's type `Int64` differs
from the declared `Int32`, yet it is left uncast because
`supertype(Int64, Int32) = Int64` is its own type — and the rewritten
call passes the claim-side check. -/
theorem scalar_function_coercion_casts_to_supertype_witness :
    check_scalar_coercion registryC5 schemaA
      (.ScalarFunction "f" [.Column "c0", .Column "c1"] .Utf8)
      (.ScalarFunction "f" [.Cast (.Column "c0") .Int64, .Column "c1"] .Utf8) = true :=
  scalar_function_coercion_casts_to_supertype registryC5 schemaA
    "f" [.Column "c0", .Column "c1"] .Utf8
    ⟨"f", [⟨"a", .Int64, true⟩, ⟨"b", .Int32, true⟩], .Utf8⟩
    (.ScalarFunction "f" [.Cast (.Column "c0") .Int64, .Column "c1"] .Utf8)
    rfl rfl

/-- The result of a successful cast of an already-idempotent rewritten
expression is itself a fixed point of the rewriter. -/
theorem rewrite_of_cast_to {R : ScalarFunctionRegistry} {s : Schema}
    {x' c : Expr} {t : DataType}
    (hidem : rewrite_expr R s x' = .ok x')
    (hcast : x'.cast_to t s = .ok c) :
    rewrite_expr R s c = .ok c := by
  unfold Expr.cast_to at hcast
  rcases result_bind_ok.mp hcast with ⟨ty, hty, hcast⟩
  split at hcast <;>
    (rw [result_pure_eq_ok] at hcast; injection hcast with hcast; subst hcast)
  · exact hidem
  · rfl

/-- A successful rewrite returns a fixed point of the rewriter
(simultaneously for both list loops). -/
theorem rewrite_idempotent_all :
    (∀ e : Expr, ∀ (R : ScalarFunctionRegistry) (s : Schema) (e' : Expr),
        rewrite_expr R s e = .ok e' → rewrite_expr R s e' = .ok e') ∧
    (∀ es : List Expr,
      (∀ (R : ScalarFunctionRegistry) (s : Schema) (params : List Field) (es' : List Expr),
          coerce_args R s es params = .ok es' → coerce_args R s es' params = .ok es') ∧
      (∀ (R : ScalarFunctionRegistry) (s : Schema) (es' : List Expr),
          rewrite_expr_list_core R s es = .ok es' →
          rewrite_expr_list_core R s es' = .ok es')) := by
  apply expr_induction
  case h1 =>
    intro l op r ihl ihr R s e' h
    simp only [rewrite_expr] at h
    rcases result_bind_ok.mp h with ⟨l', hl, h⟩
    rcases result_bind_ok.mp h with ⟨r', hr, h⟩
    rcases result_bind_ok.mp h with ⟨lt, hlt, h⟩
    rcases result_bind_ok.mp h with ⟨rt, hrt, h⟩
    split at h
    case isTrue heq =>
      rw [result_pure_eq_ok] at h
      injection h with h
      subst h
      simp only [rewrite_expr]
      rw [ihl R s l' hl, result_ok_bind, ihr R s r' hr, result_ok_bind,
        hlt, result_ok_bind, hrt, result_ok_bind, if_pos heq]
      rfl
    case isFalse hne =>
      rcases result_bind_ok.mp h with ⟨st, hst, h⟩
      rcases result_bind_ok.mp h with ⟨lc, hlc, h⟩
      rcases result_bind_ok.mp h with ⟨rc, hrc, h⟩
      rw [result_pure_eq_ok] at h
      injection h with h
      subst h
      simp only [rewrite_expr]
      rw [rewrite_of_cast_to (ihl R s l' hl) hlc, result_ok_bind,
        rewrite_of_cast_to (ihr R s r' hr) hrc, result_ok_bind,
        cast_to_ok_type hlc, result_ok_bind, cast_to_ok_type hrc, result_ok_bind,
        if_pos rfl]
      rfl
  case h2 =>
    intro e ih R s e' h
    simp only [rewrite_expr] at h
    rcases result_bind_ok.mp h with ⟨i', hi, h⟩
    rw [result_pure_eq_ok] at h
    injection h with h
    subst h
    simp only [rewrite_expr]
    rw [ih R s i' hi, result_ok_bind]
    rfl
  case h3 =>
    intro e ih R s e' h
    simp only [rewrite_expr] at h
    rcases result_bind_ok.mp h with ⟨i', hi, h⟩
    rw [result_pure_eq_ok] at h
    injection h with h
    subst h
    simp only [rewrite_expr]
    rw [ih R s i' hi, result_ok_bind]
    rfl
  case h4 =>
    intro n args rt ih R s e' h
    simp only [rewrite_expr] at h
    rcases hR : ScalarFunctionRegistry.get R n with _ | meta <;> rw [hR] at h
    · simp at h
    · rcases result_bind_ok.mp h with ⟨args2, hargs, h⟩
      rw [result_pure_eq_ok] at h
      injection h with h
      subst h
      simp only [rewrite_expr, hR]
      rw [ih.1 R s meta.args args2 hargs, result_ok_bind]
      rfl
  case h5 =>
    intro n args rt ih R s e' h
    simp only [rewrite_expr] at h
    rcases result_bind_ok.mp h with ⟨args2, hargs, h⟩
    rw [result_pure_eq_ok] at h
    injection h with h
    subst h
    simp only [rewrite_expr]
    rw [ih.2 R s args2 hargs, result_ok_bind]
    rfl
  case h6 =>
    intro e t _ R s e' h
    rw [show rewrite_expr R s (.Cast e t) = pure (.Cast e t) from rfl,
      result_pure_eq_ok] at h
    injection h with h
    subst h
    rfl
  case h7 =>
    intro n R s e' h
    rw [show rewrite_expr R s (.Column n) = pure (.Column n) from rfl,
      result_pure_eq_ok] at h
    injection h with h
    subst h
    rfl
  case h8 =>
    intro e a ih R s e' h
    simp only [rewrite_expr] at h
    rcases result_bind_ok.mp h with ⟨i', hi, h⟩
    rw [result_pure_eq_ok] at h
    injection h with h
    subst h
    simp only [rewrite_expr]
    rw [ih R s i' hi, result_ok_bind]
    rfl
  case h9 =>
    intro v R s e' h
    rw [show rewrite_expr R s (.Literal v) = pure (.Literal v) from rfl,
      result_pure_eq_ok] at h
    injection h with h
    subst h
    rfl
  case h10 =>
    intro e _ R s e' h
    rw [show rewrite_expr R s (.Not e) = pure (.Not e) from rfl,
      result_pure_eq_ok] at h
    injection h with h
    subst h
    rfl
  case h11 =>
    intro e b _ R s e' h
    rw [show rewrite_expr R s (.Sort e b) = pure (.Sort e b) from rfl,
      result_pure_eq_ok] at h
    injection h with h
    subst h
    rfl
  case h12 =>
    intro R s e' h
    simp only [rewrite_expr] at h
    simp at h
  case h13 =>
    intro e ih R s e' h
    simp only [rewrite_expr] at h
    exact ih R s e' h
  case h14 =>
    constructor
    · intro R s params es' h
      simp only [coerce_args, result_pure_eq_ok] at h
      injection h with h
      subst h
      rfl
    · intro R s es' h
      simp only [rewrite_expr_list_core, result_pure_eq_ok] at h
      injection h with h
      subst h
      rfl
  case h15 =>
    intro e es ihe ihes
    constructor
    · intro R s params es' h
      cases params with
      | nil => simp only [coerce_args] at h; simp at h
      | cons f fs =>
        simp only [coerce_args] at h
        rcases result_bind_ok.mp h with ⟨a2, ha, h⟩
        rcases result_bind_ok.mp h with ⟨actual, hty, h⟩
        split at h
        case isTrue heq =>
          rcases result_bind_ok.mp h with ⟨c, hc, h⟩
          rcases result_bind_ok.mp h with ⟨rest, hrest, h⟩
          rw [result_pure_eq_ok] at hc h
          injection hc with hc
          injection h with h
          subst hc
          subst h
          simp only [coerce_args]
          rw [ihe R s a2 ha, result_ok_bind, hty, result_ok_bind, if_pos heq,
            result_pure_eq_ok, result_ok_bind, ihes.1 R s fs rest hrest,
            result_ok_bind]
          rfl
        case isFalse hne =>
          rcases result_bind_ok.mp h with ⟨st, hst, h⟩
          rcases result_bind_ok.mp h with ⟨c, hc, h⟩
          rcases result_bind_ok.mp h with ⟨rest, hrest, h⟩
          rw [result_pure_eq_ok] at h
          injection h with h
          subst h
          have hrwc : rewrite_expr R s c = .ok c :=
            rewrite_of_cast_to (ihe R s a2 ha) hc
          have htyc : c.get_type s = .ok st := cast_to_ok_type hc
          simp only [coerce_args]
          rw [hrwc, result_ok_bind, htyc, result_ok_bind]
          split
          case isTrue heq2 =>
            rw [result_pure_eq_ok, result_ok_bind,
              ihes.1 R s fs rest hrest, result_ok_bind]
            rfl
          case isFalse hne2 =>
            rw [get_supertype_absorb actual f.data_type st hst, result_ok_bind,
              cast_to_own_type htyc, result_ok_bind,
              ihes.1 R s fs rest hrest, result_ok_bind]
            rfl
    · intro R s es' h
      simp only [rewrite_expr_list_core] at h
      rcases result_bind_ok.mp h with ⟨a2, ha, h⟩
      rcases result_bind_ok.mp h with ⟨rest, hrest, h⟩
      rw [result_pure_eq_ok] at h
      injection h with h
      subst h
      simp only [rewrite_expr_list_core]
      rw [ihe R s a2 ha, result_ok_bind, ihes.2 R s rest hrest, result_ok_bind]
      rfl

/-- C4 counterexample: `optimize` is not idempotent.  The projection
`c + d` over a child projection `{d := P + Q, c := P}` (with
`P: Int32`, `Q: Int64`) is rewritten against the original child schema
`{d: Int32, c: Int32}`, where `c + d` needs no cast — but the rewritten
child's schema has `d: Int64`, so a second pass rewrites the same
expression to `CAST(c AS Int64) + d`, a different tree. -/
theorem optimize_not_idempotent :
    optimize [] planC4 = .ok planC4opt ∧ optimize [] planC4opt ≠ .ok planC4opt := by
  constructor
  · rfl
  · intro h
    have h2 := congrArg
      (fun r => Except.map (fun p => (LogicalPlan.top_exprs p).map Expr.fmt) r) h
    revert h2
    decide

/-- C4 (amended): expression rewriting is idempotent for a fixed
schema — a successful `rewrite_expr` returns a fixed point of the
rewriter, so in particular no cast is ever inserted on top of an
inserted cast.  The plan-level `optimize` is, by contrast, not
idempotent (see the counterexample): each node's expressions are
rewritten against the original child's schema, which the first pass may
have changed. -/
theorem rewrite_expr_idempotent
    (R : ScalarFunctionRegistry) (schema : Schema) (e e' : Expr)
    (h : rewrite_expr R schema e = .ok e') :
    rewrite_expr R schema e' = .ok e' :=
  rewrite_idempotent_all.1 e R schema e' h

/-- C4 witness: rewriting the already-rewritten scenario-A expression
changes nothing. -/
theorem rewrite_expr_idempotent_witness :
    rewrite_expr [] schemaA (.BinaryExpr (.Cast (.Column "c0") .Int64) .Plus (.Column "c1")) =
      .ok (.BinaryExpr (.Cast (.Column "c0") .Int64) .Plus (.Column "c1")) :=
  rewrite_expr_idempotent [] schemaA
    (.BinaryExpr (.Column "c0") .Plus (.Column "c1"))
    (.BinaryExpr (.Cast (.Column "c0") .Int64) .Plus (.Column "c1")) rfl

/-- C2 counterexample: `optimize` does not rewrite against the
rewritten child's schema.  `parentP0` projects `x + 5:Int64` over a
child projection `{x := P + Q}` whose original schema types `x` as
`Int32` but whose rewritten schema types it as `Int64`: the source's
`optimize` inserts `CAST(x AS Int64)` (using the original schema),
while the claim-side variant leaves `x` uncast. -/
theorem optimize_not_rewritten_child_schema :
    optimize [] parentP0 ≠ optimize_rewritten_child_schema [] parentP0 := by
  intro h
  have h2 := congrArg
    (fun r => Except.map (fun p => (LogicalPlan.top_exprs p).map Expr.fmt) r) h
  revert h2
  decide

/-- C2 (amended): for every Projection, Selection, Aggregate and Sort
node, `optimize` first recursively rewrites the child plan and then
rewrites the node's own expression lists against the schema of the
*original* child plan — not the rewritten child's schema — before
reconstructing the node via the plan builder (and the remaining node
kinds follow the same child-first scheme). -/
theorem optimize_follows_original_child_schema (R : ScalarFunctionRegistry) :
    ∀ p : LogicalPlan, optimize R p = optimize_original_child_schema R p := by
  intro p
  induction p <;> simp only [optimize, optimize_original_child_schema, *]

end DataFusion
